import Mathlib

/-!
Verification of the Wikipedia edit-war analyzer's controversy-score pipeline
(`api_fetcher.py`, `data_processor.py`, `controversy_score.py`, `config.py`).

Revisions are modelled as records with UTC timestamps in epoch seconds;
pandas DataFrames become Lean lists of records, boolean columns become
`List Bool`, and float arithmetic becomes exact arithmetic over `ℚ`
(data processor) and `ℝ` (score engine, which uses logarithms).
Python `round` is banker's rounding (round half to even), modelled by
`bankersRound` below.
-/

namespace WikiWar

/-! ## Configuration constants (config.py) -/

/-- Keywords that suggest a revert / edit conflict in an edit comment. -/
def REVERT_KEYWORDS : List String :=
  [("revert"), ("reverted"), ("rv"), ("undo"), ("undid"),
   ("vandalism"), ("vandal"), ("restore"), ("restored"),
   ("rollback"), ("reverts")]

/-- Keyword groups for NLP conflict detection in comments. -/
def CONFLICT_KEYWORDS : List (String × List String) :=
  [(("hostility"), [("attack"), ("abuse"), ("harassment"), ("insult"), ("inappropriate")]),
   (("dispute"), [("dispute"), ("disagree"), ("incorrect"), ("wrong"), ("false"),
                  ("inaccurate"), ("misleading"), ("biased"), ("bias"), ("pov"),
                  ("neutral"), ("neutrality")]),
   (("revert_lang"), REVERT_KEYWORDS),
   (("protection"), [("protected"), ("semi-protected"), ("fully protected"), ("edit request")])]

/-- A window is a spike if edits are at least mean times this multiplier. -/
def SPIKE_MULTIPLIER : ℚ := 3

/-! ## Data model -/

/-- One revision record as produced by the fetcher: columns
`revid, timestamp, user, comment, size`.  The timestamp is a UTC instant
in epoch seconds. -/
structure Revision where
  revid : Nat
  timestamp : Nat
  user : String
  comment : String
  size : Int
deriving Repr, DecidableEq

/-- A revision together with the derived columns added by
`process_revisions`. -/
structure EnrichedRevision where
  rev : Revision
  is_revert : Bool
  is_bot : Bool
  is_spike_day : Bool
  nlp_any_conflict : Bool
  size_delta : Int
deriving Repr, DecidableEq

/-! ## String helpers -/

/-- Lowercased character sequence of a string (Python `str.lower()` on the
ASCII range). -/
def lowChars (s : String) : List Char := s.toList.map Char.toLower

/-- Does `l` start with `p`?  (List prefix test on characters.) -/
def startsWithChars : List Char → List Char → Bool
  | _, [] => true
  | [], _ :: _ => false
  | c :: cs, d :: ds => c == d && startsWithChars cs ds

/-- Python's `needle in hay` substring test over character lists. -/
def containsChars : List Char → List Char → Bool
  | [], needle => startsWithChars [] needle
  | c :: cs, needle => startsWithChars (c :: cs) needle || containsChars cs needle

/-- `_comment_contains`: true when the non-empty lowercased comment contains
any of the given keywords as a substring. -/
def commentContains (comment : String) (keywords : List String) : Bool :=
  if comment.toList.isEmpty then false
  else keywords.any fun kw => containsChars (lowChars comment) kw.toList

/-! ## Bot detection (`detect_bots`): the regex `\bbot\b` on the lowercased
author name. -/

/-- Word character for the regex word boundary `\b`: letters, digits and
underscore. -/
def isWordChar (c : Char) : Bool := c.isAlphanum || c == '_'

/-- Is the optional neighbouring character a valid word boundary
(no character at all, or a non-word character)? -/
def okB : Option Char → Bool
  | none => true
  | some c => !isWordChar c

/-- Does the token `bot` occur at the head of `l`, with a word boundary on
both sides?  `prev` is the character immediately before `l`. -/
def botHere (prev : Option Char) (l : List Char) : Bool :=
  match l with
  | c1 :: c2 :: c3 :: tail =>
      c1 == 'b' && c2 == 'o' && c3 == 't' && okB prev && okB tail.head?
  | _ => false

/-- Scan of `re.search(r"\bbot\b", ·)`: try every position of the list. -/
def hasBotAux (prev : Option Char) : List Char → Bool
  | [] => false
  | c :: rest => botHere prev (c :: rest) || hasBotAux (some c) rest

/-- `detect_bots` on a single author: the lowercased username contains the
whole word `bot`. -/
def isBotUser (user : String) : Bool := hasBotAux none (lowChars user)

/-- The `is_bot` column added by `detect_bots`. -/
def detectBots (l : List Revision) : List Bool := l.map fun r => isBotUser r.user

/-! ## Spike detection (`detect_spikes`) -/

/-- UTC calendar date of a timestamp (`df["timestamp"].dt.date`), as a day
number. -/
def dayOf (ts : Nat) : Nat := ts / 86400

/-- The set of spike dates: dates whose edit count is at least
`SPIKE_MULTIPLIER` times the mean daily count, where the mean is
`daily_counts.mean()` taken over the distinct dates present. -/
def spikeDates (tss : List Nat) : List Nat :=
  let dates := tss.map dayOf
  let meanDaily : ℚ := (dates.length : ℚ) / (dates.dedup.length : ℚ)
  dates.dedup.filter fun d => decide (SPIKE_MULTIPLIER * meanDaily ≤ (dates.count d : ℚ))

/-- Is the revision at timestamp `ts` on a spike date of the series `tss`? -/
def isSpikeDay (tss : List Nat) (ts : Nat) : Bool := (spikeDates tss).contains (dayOf ts)

/-- The `is_spike_day` column added by `detect_spikes`. -/
def detectSpikes (tss : List Nat) : List Bool := tss.map fun ts => isSpikeDay tss ts

/-! ## Conflict language flags (`nlp_conflict_flags`) -/

/-- The `nlp_any_conflict` column: some category of `CONFLICT_KEYWORDS`
matches the comment. -/
def anyConflict (comment : String) : Bool :=
  CONFLICT_KEYWORDS.any fun cat => commentContains comment cat.2

/-! ## Size deltas (`compute_edit_size_delta`) -/

/-- The `size_delta` column: `diff().fillna(0)` of the size column; the
first revision gets `0`, each later revision the difference with its
predecessor. -/
def computeEditSizeDelta : List Int → List Int
  | [] => []
  | s :: rest => 0 :: rest.zipWith (fun a b => a - b) (s :: rest)

/-! ## Master enrichment (`process_revisions`) -/

/-- `process_revisions`: empty input stays empty, otherwise all derived
columns are attached to each row. -/
def processRevisions (l : List Revision) : List EnrichedRevision :=
  match l with
  | [] => []
  | _ :: _ =>
      let tss := l.map fun r => r.timestamp
      let deltas := computeEditSizeDelta (l.map fun r => r.size)
      (l.zip deltas).map fun p =>
        { rev := p.1
          is_revert := commentContains p.1.comment REVERT_KEYWORDS
          is_bot := isBotUser p.1.user
          is_spike_day := isSpikeDay tss p.1.timestamp
          nlp_any_conflict := anyConflict p.1.comment
          size_delta := p.2 }

/-! ## Rounding

Python's `round` rounds half to even (banker's rounding).  `bankersRound`
is the integer-valued version; `round2`/`round1R` are `round(x, 2)` and
`round(x, 1)`. -/

/-- Python `round` to the nearest integer, ties to even. -/
def bankersRound {α : Type} [LinearOrderedField α] [FloorRing α]
    [DecidableRel ((· < ·) : α → α → Prop)] (x : α) : ℤ :=
  if x - (⌊x⌋ : α) < 1/2 then ⌊x⌋
  else if 1/2 < x - (⌊x⌋ : α) then ⌊x⌋ + 1
  else if ⌊x⌋ % 2 = 0 then ⌊x⌋ else ⌊x⌋ + 1

/-- Python `round(x, 2)` over exact rationals. -/
def round2 (x : ℚ) : ℚ := (bankersRound (x * 100) : ℚ) / 100

/-- Python `round(x, 1)` over exact reals. -/
noncomputable def round1R (x : ℝ) : ℝ := (bankersRound (x * 10) : ℝ) / 10

/-! ## Sorting helper

`sort_values` in pandas uses numpy's default `kind='quicksort'`
(introsort), which is NOT stable: the relative order of equal keys is
implementation-defined once the input exceeds introsort's small-array
threshold (16 elements, below which the kernel is a stable insertion
sort; pandas' descending wrapper reverses the data before and the indices
after the ascending argsort, so for small inputs ties keep their input
order).  `insertLe`/`sortLe` below is that insertion sort: it agrees with
the program on small inputs and is one admissible outcome otherwise.
Theorems about the value sort's result must therefore only use the
order-insensitive contract `SortedDescBy` (some permutation, sorted on the
key), never this model's tie order — except on inputs small enough that
the kernel is the insertion sort itself. -/

/-- Insert `x` before the first element `y` with `le x y`. -/
def insertLe {α : Type} (le : α → α → Bool) (x : α) : List α → List α
  | [] => [x]
  | y :: ys => if le x y then x :: y :: ys else y :: insertLe le x ys

/-- Stable insertion sort with respect to the boolean comparator `le`. -/
def sortLe {α : Type} (le : α → α → Bool) (l : List α) : List α :=
  l.foldr (insertLe le) []

/-- Code-point comparison of character lists (Python string `<`). -/
def charListLt : List Char → List Char → Bool
  | [], [] => false
  | [], _ :: _ => true
  | _ :: _, [] => false
  | c :: cs, d :: ds => c.toNat < d.toNat || (c == d && charListLt cs ds)

/-- Comparator for usernames: `a ≤ b` in code-point order. -/
def userLe (a b : String) : Bool := !charListLt b.toList a.toList

/-! ## Summary statistics (`compute_summary`) -/

/-- The dictionary returned by `compute_summary` for a non-empty input.
`first_edit`/`last_edit` keep the raw min/max timestamps (the code
stringifies them to a date, which we do not model further). -/
structure SummaryStatistics where
  total_edits : Nat
  total_reverts : Nat
  revert_rate : ℚ
  total_bots : Nat
  total_humans : Nat
  unique_editors : Nat
  unique_humans : Nat
  spike_days : Nat
  nlp_conflicts : Nat
  first_edit : Nat
  last_edit : Nat
  top_editors : List (String × Nat)
deriving Repr, DecidableEq

/-- Minimum of a timestamp column (only used on non-empty input). -/
def tsMinL : List Nat → Nat
  | [] => 0
  | t :: ts => ts.foldl min t

/-- Maximum of a timestamp column (only used on non-empty input). -/
def tsMaxL : List Nat → Nat
  | [] => 0
  | t :: ts => ts.foldl max t

/-- Per-author edit counts in the order produced by `groupby("user")`:
distinct users sorted ascending by name (pandas groupby sorts its keys
deterministically), each with its count. -/
def authorCounts (l : List EnrichedRevision) : List (String × Nat) :=
  let users := l.map fun e => e.rev.user
  (sortLe userLe users.dedup).map fun u => (u, users.count u)

/-- `top_editors`: author counts sorted by count descending, cut to the
first 10.  The tie order produced here (input order, i.e. ascending
username) is the program's actual behaviour only while the author set is
small enough for numpy's insertion-sort kernel; in general the program's
tie order is implementation-defined, and theorems about `top_editors`
quantify over every output admissible under `IsTopEditors` below. -/
def topEditors (l : List EnrichedRevision) : List (String × Nat) :=
  (sortLe (fun a b => decide (b.2 ≤ a.2)) (authorCounts l)).take 10

/-- The contract of `sort_values(ascending=False, kind='quicksort')`: the
output is some permutation of the input that is descending in the count;
which permutation — in particular the relative order of equal counts — is
implementation-defined. -/
def SortedDescBy (src out : List (String × Nat)) : Prop :=
  List.Perm src out ∧ out.Pairwise fun a b => b.2 ≤ a.2

/-- Every result the `top_editors` pipeline can produce: some admissible
descending sort of the author counts, cut to the first 10. -/
def IsTopEditors (l : List EnrichedRevision) (out : List (String × Nat)) : Prop :=
  ∃ sorted, SortedDescBy (authorCounts l) sorted ∧ out = sorted.take 10

/-- `compute_summary`: `none` models the empty dict `{}` returned for an
empty DataFrame; otherwise the statistics dictionary. -/
def computeSummary (l : List EnrichedRevision) : Option SummaryStatistics :=
  match l with
  | [] => none
  | e :: rest =>
      let df := e :: rest
      let totalEdits := df.length
      let totalReverts := df.countP fun r => r.is_revert
      let totalBots := df.countP fun r => r.is_bot
      let users := df.map fun r => r.rev.user
      let tss := df.map fun r => r.rev.timestamp
      some
        { total_edits := totalEdits
          total_reverts := totalReverts
          revert_rate := round2 ((totalReverts : ℚ) / (totalEdits : ℚ) * 100)
          total_bots := totalBots
          total_humans := totalEdits - totalBots
          unique_editors := users.dedup.length
          unique_humans := ((df.filter fun r => !r.is_bot).map fun r => r.rev.user).dedup.length
          spike_days := df.countP fun r => r.is_spike_day
          nlp_conflicts := df.countP fun r => r.nlp_any_conflict
          first_edit := tsMinL tss
          last_edit := tsMaxL tss
          top_editors := topEditors df }

/-! ## Fetcher post-processing (`fetch_revision_history`, lines 125-150)

The network part is out of scope; we model the pure tail of the function:
normalising missing fields, dropping rows whose timestamp fails to parse
(`pd.to_datetime(..., errors="coerce")` then `dropna`), and sorting by
timestamp ascending. -/

/-- A raw revision object from the wire; `none` marks a missing field, and
`timestamp = none` marks a timestamp that fails to parse. -/
structure RawRevision where
  revid : Option Nat
  timestamp : Option Nat
  user : Option String
  comment : Option String
  size : Option Int
deriving Repr, DecidableEq

/-- Field normalisation applied to a kept row. -/
def normalizeRaw (r : RawRevision) (ts : Nat) : Revision :=
  { revid := r.revid.getD 0
    timestamp := ts
    user := r.user.getD ("Unknown")
    comment := r.comment.getD ("")
    size := r.size.getD 0 }

/-- The DataFrame returned by `fetch_revision_history`: unparseable
timestamps dropped, the rest sorted by timestamp ascending. -/
def postProcessRevisions (raws : List RawRevision) : List Revision :=
  sortLe (fun a b => decide (a.timestamp ≤ b.timestamp))
    (raws.filterMap fun r => r.timestamp.map fun ts => normalizeRaw r ts)

/-! ## Score engine (`controversy_score.py`) -/

/-- Weight of the revert component. -/
def SCORE_WEIGHT_REVERTS : ℝ := 0.40

/-- Weight of the unique-editor component. -/
def SCORE_WEIGHT_UNIQUE_EDITORS : ℝ := 0.30

/-- Weight of the spike component. -/
def SCORE_WEIGHT_SPIKES : ℝ := 0.30

/-- Logarithm base used when normalising (`SCORE_LOG_BASE`). -/
def SCORE_LOG_BASE : ℝ := 10

/-- `_log_normalise`: log-scale normalisation of `value` against
`maxValue`, clipped to `[0, 1]`. -/
noncomputable def logNormalise (value maxValue : ℝ) : ℝ :=
  if value ≤ 0 ∨ maxValue ≤ 0 then 0
  else if Real.logb SCORE_LOG_BASE (maxValue + 1) = 0 then 0
  else min (Real.logb SCORE_LOG_BASE (value + 1) / Real.logb SCORE_LOG_BASE (maxValue + 1)) 1

/-- The result dictionary of `compute_controversy_score`. -/
structure ScoreResult where
  score : ℝ
  revert_score : ℝ
  editor_score : ℝ
  spike_score : ℝ
  label : String

/-- The severity label computed from the rounded score. -/
noncomputable def labelOf (score : ℝ) : String :=
  if score < 25 then ("Low")
  else if score < 50 then ("Medium")
  else if score < 75 then ("High")
  else ("Extreme")

/-- The scoring core of `compute_controversy_score` once the three raw
component values (revert rate %, editor density %, spike fraction %) are
known. -/
noncomputable def scoreBreakdown (rawRevert density spikeFraction : ℝ) : ScoreResult :=
  let revertNorm := logNormalise rawRevert 30
  let editorNorm := logNormalise density 60
  let spikeNorm := logNormalise spikeFraction 20
  let composite := revertNorm * SCORE_WEIGHT_REVERTS +
    editorNorm * SCORE_WEIGHT_UNIQUE_EDITORS + spikeNorm * SCORE_WEIGHT_SPIKES
  { score := round1R (composite * 100)
    revert_score := round1R (revertNorm * 100)
    editor_score := round1R (editorNorm * 100)
    spike_score := round1R (spikeNorm * 100)
    label := labelOf (round1R (composite * 100)) }

/-- `compute_controversy_score`: short-circuits to the all-zero result when
the DataFrame is empty or the summary dict is empty, otherwise computes the
three raw components and scores them. -/
noncomputable def computeControversyScore (df : List EnrichedRevision)
    (summary : Option SummaryStatistics) : ScoreResult :=
  match df, summary with
  | [], _ => ⟨0, 0, 0, 0, ("Low")⟩
  | _ :: _, none => ⟨0, 0, 0, 0, ("Low")⟩
  | e :: rest, some s =>
      let tss := (e :: rest).map fun r => r.rev.timestamp
      let totalDays : Nat := max ((tsMaxL tss - tsMinL tss) / 86400) 1
      scoreBreakdown
        ((s.total_reverts : ℝ) / ((max s.total_edits 1 : Nat) : ℝ) * 100)
        ((s.unique_editors : ℝ) / ((max s.total_edits 1 : Nat) : ℝ) * 100)
        ((s.spike_days : ℝ) / (totalDays : ℝ) * 100)

/-! ## Lemmas about banker's rounding -/

section BankersRound

variable {α : Type} [LinearOrderedField α] [FloorRing α]
variable [DecidableRel ((· < ·) : α → α → Prop)]

theorem floor_le_bankersRound (x : α) : ⌊x⌋ ≤ bankersRound x := by
  unfold bankersRound
  split_ifs <;> omega

theorem bankersRound_le_floor_add_one (x : α) : bankersRound x ≤ ⌊x⌋ + 1 := by
  unfold bankersRound
  split_ifs <;> omega

theorem bankersRound_intCast (n : ℤ) : bankersRound ((n : α)) = n := by
  unfold bankersRound
  split_ifs with c1 c2 c3
  · exact Int.floor_intCast n
  all_goals exfalso; apply c1; rw [Int.floor_intCast]; norm_num

theorem bankersRound_le {x : α} {n : ℤ} (h : x ≤ (n : α)) : bankersRound x ≤ n := by
  have hf : ⌊x⌋ ≤ n := by
    have := Int.floor_mono h
    rwa [Int.floor_intCast] at this
  rcases lt_or_eq_of_le hf with hlt | heq
  · exact le_trans (bankersRound_le_floor_add_one x) (by omega)
  · have hx : x = (n : α) := by
      refine le_antisymm h ?_
      have := Int.floor_le x
      rwa [heq] at this
    rw [hx, bankersRound_intCast]

theorem le_bankersRound {x : α} {n : ℤ} (h : (n : α) ≤ x) : n ≤ bankersRound x :=
  le_trans (Int.le_floor.mpr h) (floor_le_bankersRound x)

theorem bankersRound_eq {x : α} {n : ℤ}
    (h1 : (n : α) - 1/2 < x) (h2 : x < (n : α) + 1/2) : bankersRound x = n := by
  have hfx : (⌊x⌋ : α) ≤ x := Int.floor_le x
  have hxf : x < (⌊x⌋ : α) + 1 := Int.lt_floor_add_one x
  have hfu : ⌊x⌋ ≤ n := by
    by_contra hc
    push_neg at hc
    have : ((n : ℤ) : α) + 1 ≤ (⌊x⌋ : α) := by exact_mod_cast hc
    linarith
  have hfl : n - 1 ≤ ⌊x⌋ := by
    apply Int.le_floor.mpr
    push_cast
    linarith
  unfold bankersRound
  split_ifs with c1 c2 c3
  · -- fractional part below one half
    have : (n : α) < (⌊x⌋ : α) + 1 := by linarith
    have : n < ⌊x⌋ + 1 := by exact_mod_cast this
    omega
  · -- fractional part above one half
    have : (⌊x⌋ : α) < (n : α) := by linarith
    have : ⌊x⌋ < n := by exact_mod_cast this
    omega
  · -- exact tie is impossible inside the open interval
    exfalso
    have ht : x - (⌊x⌋ : α) = 1/2 := le_antisymm (not_lt.mp c2) (not_lt.mp c1)
    have hl : (n : α) < (⌊x⌋ : α) + 1 := by linarith
    have hu : (⌊x⌋ : α) < (n : α) := by linarith
    have hl : n < ⌊x⌋ + 1 := by exact_mod_cast hl
    have hu : ⌊x⌋ < n := by exact_mod_cast hu
    omega
  · exfalso
    have ht : x - (⌊x⌋ : α) = 1/2 := le_antisymm (not_lt.mp c2) (not_lt.mp c1)
    have hl : (n : α) < (⌊x⌋ : α) + 1 := by linarith
    have hu : (⌊x⌋ : α) < (n : α) := by linarith
    have hl : n < ⌊x⌋ + 1 := by exact_mod_cast hl
    have hu : ⌊x⌋ < n := by exact_mod_cast hu
    omega

theorem bankersRound_mono {x y : α} (h : x ≤ y) : bankersRound x ≤ bankersRound y := by
  rcases lt_or_le ⌊x⌋ ⌊y⌋ with hf | hf
  · calc bankersRound x ≤ ⌊x⌋ + 1 := bankersRound_le_floor_add_one x
      _ ≤ ⌊y⌋ := by omega
      _ ≤ bankersRound y := floor_le_bankersRound y
  · have heq : ⌊x⌋ = ⌊y⌋ := le_antisymm (Int.floor_mono h) hf
    unfold bankersRound
    rw [heq]
    split_ifs <;> first | omega | linarith

end BankersRound

/-! ## Lemmas about the insertion sort -/

section SortLe

variable {α : Type}

theorem insertLe_perm (le : α → α → Bool) (x : α) (l : List α) :
    List.Perm (insertLe le x l) (x :: l) := by
  induction l with
  | nil => exact List.Perm.refl _
  | cons y ys ih =>
      by_cases h : le x y
      · simp [insertLe, h]
      · simp only [insertLe, h, if_false]
        exact List.Perm.trans (List.Perm.cons y ih) (List.Perm.swap x y ys)

theorem sortLe_perm (le : α → α → Bool) (l : List α) : List.Perm (sortLe le l) l := by
  induction l with
  | nil => exact List.Perm.refl _
  | cons x xs ih => exact List.Perm.trans (insertLe_perm le x (sortLe le xs)) (List.Perm.cons x ih)

theorem mem_insertLe {le : α → α → Bool} {x z : α} {l : List α} :
    z ∈ insertLe le x l ↔ z = x ∨ z ∈ l := by
  rw [(insertLe_perm le x l).mem_iff]
  simp

theorem insertLe_pairwise (le : α → α → Bool)
    (htot : ∀ a b, le a b = false → le b a = true)
    (htrans : ∀ a b c, le a b = true → le b c = true → le a c = true)
    (x : α) : ∀ (m : List α), m.Pairwise (fun a b => le a b = true) →
    (insertLe le x m).Pairwise (fun a b => le a b = true) := by
  intro m
  induction m with
  | nil =>
      intro _
      simp [insertLe]
  | cons y ys ih =>
      intro hp
      rcases List.pairwise_cons.mp hp with ⟨hy, hys⟩
      by_cases h : le x y
      · simp only [insertLe, h, if_true]
        refine List.pairwise_cons.mpr ⟨?_, hp⟩
        intro z hz
        rcases List.mem_cons.mp hz with h1 | hz
        · rw [h1]
          exact h
        · exact htrans x y z h (hy z hz)
      · simp only [insertLe, h, if_false]
        refine List.pairwise_cons.mpr ⟨?_, ih hys⟩
        intro z hz
        rcases mem_insertLe.mp hz with h1 | hz
        · rw [h1]
          exact htot x y (by simpa using h)
        · exact hy z hz

theorem sortLe_pairwise (le : α → α → Bool)
    (htot : ∀ a b, le a b = false → le b a = true)
    (htrans : ∀ a b c, le a b = true → le b c = true → le a c = true)
    (l : List α) : (sortLe le l).Pairwise (fun a b => le a b = true) := by
  induction l with
  | nil => simp [sortLe]
  | cons x xs ih => exact insertLe_pairwise le htot htrans x (sortLe le xs) ih

end SortLe

/-! ## Declarative characterisation of the `\bbot\b` regex -/

/-- Propositional form of `okB`: if the optional neighbouring character
exists, it is not a word character. -/
def okC (o : Option Char) : Prop := ∀ c, o = some c → isWordChar c = false

/-- The regex `\bbot\b` matches `l` (with `prev` the character just before
`l`): `l` splits as `a ++ "bot" ++ b` with a word boundary on both sides
of the token. -/
def hasBotSpec (prev : Option Char) (l : List Char) : Prop :=
  ∃ a b, l = a ++ 'b' :: 'o' :: 't' :: b ∧ okC (a.getLast?.or prev) ∧ okC b.head?

theorem okB_iff (o : Option Char) : okB o = true ↔ okC o := by
  cases o with
  | none => simp [okB, okC]
  | some c => simp [okB, okC]

theorem getLast?_cons_or (c : Char) (a : List Char) :
    (c :: a).getLast? = a.getLast?.or (some c) := by
  induction a generalizing c with
  | nil => rfl
  | cons d ds ih =>
      rw [List.getLast?_cons_cons, ih d, Option.or_assoc]
      rfl

theorem botHere_iff (prev : Option Char) (l : List Char) :
    botHere prev l = true ↔
      ∃ b, l = 'b' :: 'o' :: 't' :: b ∧ okC prev ∧ okC b.head? := by
  match l with
  | [] => simp [botHere]
  | [c1] => simp [botHere]
  | [c1, c2] => simp [botHere]
  | c1 :: c2 :: c3 :: tail =>
      simp only [botHere, Bool.and_eq_true, beq_iff_eq, okB_iff, List.cons.injEq]
      constructor
      · rintro ⟨⟨⟨⟨h1, h2⟩, h3⟩, hp⟩, ht⟩
        exact ⟨tail, ⟨h1, h2, h3, rfl⟩, hp, ht⟩
      · rintro ⟨b, ⟨h1, h2, h3, hb⟩, hp, ht⟩
        subst hb
        exact ⟨⟨⟨⟨h1, h2⟩, h3⟩, hp⟩, ht⟩

theorem hasBotSpec_cons (prev : Option Char) (c : Char) (rest : List Char) :
    hasBotSpec prev (c :: rest) ↔
      (∃ b, c :: rest = 'b' :: 'o' :: 't' :: b ∧ okC prev ∧ okC b.head?) ∨
      hasBotSpec (some c) rest := by
  constructor
  · rintro ⟨a, b, heq, hba, hbb⟩
    cases a with
    | nil =>
        refine Or.inl ⟨b, heq, ?_, hbb⟩
        simpa [Option.or] using hba
    | cons a1 a2 =>
        have h1 : c = a1 := by
          have := congrArg List.head? heq
          simpa using this
        have h2 : rest = a2 ++ 'b' :: 'o' :: 't' :: b := by
          have := congrArg List.tail heq
          simpa using this
        refine Or.inr ⟨a2, b, h2, ?_, hbb⟩
        rw [getLast?_cons_or, Option.or_assoc] at hba
        subst h1
        simpa [Option.or] using hba
  · rintro (⟨b, heq, hp, hb⟩ | ⟨a, b, heq, hba, hbb⟩)
    · refine ⟨[], b, heq, ?_, hb⟩
      simpa [Option.or] using hp
    · refine ⟨c :: a, b, by rw [heq]; rfl, ?_, hbb⟩
      rw [getLast?_cons_or, Option.or_assoc]
      simpa [Option.or] using hba

theorem hasBotAux_iff : ∀ (l : List Char) (prev : Option Char),
    hasBotAux prev l = true ↔ hasBotSpec prev l := by
  intro l
  induction l with
  | nil =>
      intro prev
      simp [hasBotAux, hasBotSpec]
  | cons c rest ih =>
      intro prev
      rw [show hasBotAux prev (c :: rest) = (botHere prev (c :: rest) || hasBotAux (some c) rest) from rfl,
        Bool.or_eq_true, botHere_iff, ih (some c), hasBotSpec_cons]

/-- The bot detector agrees with the declarative word-boundary reading of
the regex on the lowercased author string. -/
theorem isBotUser_iff (user : String) :
    isBotUser user = true ↔ hasBotSpec none (lowChars user) :=
  hasBotAux_iff (lowChars user) none

/-! ## Lemmas about `_log_normalise` -/

theorem logNormalise_nonneg (v m : ℝ) : 0 ≤ logNormalise v m := by
  unfold logNormalise
  split_ifs with h1 h2
  · exact le_refl 0
  · exact le_refl 0
  · push_neg at h1
    refine le_min (div_nonneg ?_ ?_) (by norm_num)
    · exact Real.logb_nonneg (by norm_num [SCORE_LOG_BASE]) (by linarith [h1.1])
    · exact le_of_lt (Real.logb_pos (by norm_num [SCORE_LOG_BASE]) (by linarith [h1.2]))

theorem logNormalise_le_one (v m : ℝ) : logNormalise v m ≤ 1 := by
  unfold logNormalise
  split_ifs with h1 h2
  · norm_num
  · norm_num
  · exact min_le_right _ _

theorem logNormalise_zero_of_nonpos {v : ℝ} (m : ℝ) (hv : v ≤ 0) : logNormalise v m = 0 := by
  unfold logNormalise
  rw [if_pos (Or.inl hv)]

theorem logNormalise_mono (m : ℝ) {v w : ℝ} (h : v ≤ w) :
    logNormalise v m ≤ logNormalise w m := by
  rcases le_or_lt m 0 with hm | hm
  · unfold logNormalise
    rw [if_pos (Or.inr hm), if_pos (Or.inr hm)]
  · rcases le_or_lt v 0 with hv | hv
    · rw [logNormalise_zero_of_nonpos m hv]
      exact logNormalise_nonneg w m
    · have hw : 0 < w := lt_of_lt_of_le hv h
      have hden : 0 < Real.logb SCORE_LOG_BASE (m + 1) :=
        Real.logb_pos (by norm_num [SCORE_LOG_BASE]) (by linarith)
      unfold logNormalise
      rw [if_neg (by push_neg; exact ⟨hv, hm⟩), if_neg (ne_of_gt hden),
        if_neg (by push_neg; exact ⟨hw, hm⟩), if_neg (ne_of_gt hden)]
      refine min_le_min ?_ (le_refl 1)
      refine div_le_div_of_nonneg_right ?_ (le_of_lt hden)
      exact Real.logb_le_logb_of_le (by norm_num [SCORE_LOG_BASE]) (by linarith) (by linarith)

theorem logNormalise_eq_of_le {v m : ℝ} (hv : 0 < v) (hm : 0 < m) (hvm : v ≤ m) :
    logNormalise v m = Real.log (v + 1) / Real.log (m + 1) := by
  have hden : 0 < Real.logb SCORE_LOG_BASE (m + 1) :=
    Real.logb_pos (by norm_num [SCORE_LOG_BASE]) (by linarith)
  unfold logNormalise
  rw [if_neg (by push_neg; exact ⟨hv, hm⟩), if_neg (ne_of_gt hden)]
  rw [min_eq_left]
  · unfold Real.logb SCORE_LOG_BASE
    field_simp
  · refine div_le_one_of_le₀ ?_ (le_of_lt hden)
    exact Real.logb_le_logb_of_le (by norm_num [SCORE_LOG_BASE]) (by linarith) (by linarith)

theorem logNormalise_saturated {v m : ℝ} (hv : 0 < v) (hm : 0 < m) (hmv : m ≤ v) :
    logNormalise v m = 1 := by
  have hden : 0 < Real.logb SCORE_LOG_BASE (m + 1) :=
    Real.logb_pos (by norm_num [SCORE_LOG_BASE]) (by linarith)
  unfold logNormalise
  rw [if_neg (by push_neg; exact ⟨hv, hm⟩), if_neg (ne_of_gt hden)]
  rw [min_eq_right]
  exact (one_le_div hden).mpr
    (Real.logb_le_logb_of_le (by norm_num [SCORE_LOG_BASE]) (by linarith) (by linarith))

/-! ## Rational bounds on log ratios via integer power comparisons -/

theorem log_ratio_lt {a b : ℕ} (p q : ℕ) (ha : 0 < a) (hb : 1 < b) (hq : 0 < q)
    (h : a ^ q < b ^ p) : Real.log a / Real.log b < (p : ℝ) / (q : ℝ) := by
  have hb0 : (0:ℝ) < Real.log b := Real.log_pos (by exact_mod_cast hb)
  have hq0 : (0:ℝ) < (q:ℝ) := by exact_mod_cast hq
  rw [div_lt_div_iff₀ hb0 hq0]
  have hcast : ((a:ℝ)) ^ q < ((b:ℝ)) ^ p := by exact_mod_cast h
  have ha0 : (0:ℝ) < (a:ℝ) := by exact_mod_cast ha
  have hlt : Real.log ((a:ℝ) ^ q) < Real.log ((b:ℝ) ^ p) :=
    Real.log_lt_log (by positivity) hcast
  rw [Real.log_pow, Real.log_pow] at hlt
  nlinarith [hlt]

theorem lt_log_ratio {a b : ℕ} (p q : ℕ) (hb : 1 < b) (hq : 0 < q)
    (h : b ^ p < a ^ q) : (p : ℝ) / (q : ℝ) < Real.log a / Real.log b := by
  have hb0 : (0:ℝ) < Real.log b := Real.log_pos (by exact_mod_cast hb)
  have hq0 : (0:ℝ) < (q:ℝ) := by exact_mod_cast hq
  rw [div_lt_div_iff₀ hq0 hb0]
  have hcast : ((b:ℝ)) ^ p < ((a:ℝ)) ^ q := by exact_mod_cast h
  have hlt : Real.log ((b:ℝ) ^ p) < Real.log ((a:ℝ) ^ q) :=
    Real.log_lt_log (by positivity) hcast
  rw [Real.log_pow, Real.log_pow] at hlt
  nlinarith [hlt]

/-! ## The C7 scenario: 100 revisions, 40 reverts, 10 unique authors,
2 spike days over a 50-day span -/

/-- A minimal enriched revision used to build concrete inputs. -/
def mkEnriched (u : String) (ts : Nat) : EnrichedRevision :=
  { rev := { revid := 0, timestamp := ts, user := u, comment := (""), size := 0 }
    is_revert := false
    is_bot := false
    is_spike_day := false
    nlp_any_conflict := false
    size_delta := 0 }

/-- A DataFrame whose timestamps span exactly 50 days. -/
def scenarioDf : List EnrichedRevision := [mkEnriched ("a") 0, mkEnriched ("b") 4320000]

/-- The summary statistics of the C7 scenario. -/
def scenarioSummary : SummaryStatistics :=
  { total_edits := 100
    total_reverts := 40
    revert_rate := 40
    total_bots := 0
    total_humans := 100
    unique_editors := 10
    unique_humans := 10
    spike_days := 2
    nlp_conflicts := 0
    first_edit := 0
    last_edit := 4320000
    top_editors := [] }

theorem round1R_eq {x : ℝ} {n : ℤ} (h1 : (n : ℝ) - 1/2 < x * 10)
    (h2 : x * 10 < (n : ℝ) + 1/2) : round1R x = (n : ℝ) / 10 := by
  unfold round1R
  rw [bankersRound_eq h1 h2]

theorem scenario_reduce :
    computeControversyScore scenarioDf (some scenarioSummary) = scoreBreakdown 40 10 4 := by
  show scoreBreakdown _ _ _ = scoreBreakdown 40 10 4
  have h1 : tsMaxL (List.map (fun r => r.rev.timestamp)
      [mkEnriched ("a") 0, mkEnriched ("b") 4320000]) = 4320000 := by decide
  have h2 : tsMinL (List.map (fun r => r.rev.timestamp)
      [mkEnriched ("a") 0, mkEnriched ("b") 4320000]) = 0 := by decide
  rw [h1, h2]
  norm_num [scenarioSummary]

theorem pow_fact_editor_low : (61:ℕ) ^ 729 < 11 ^ 1250 := by
  have e1 : (61:ℕ) ^ 729 = (61 ^ 243) ^ 3 := by rw [← pow_mul]
  have e2 : (11:ℕ) ^ 1250 = (11 ^ 250) ^ 5 := by rw [← pow_mul]
  rw [e1, e2]
  norm_num

theorem pow_fact_editor_high : (11:ℕ) ^ 12 < 61 ^ 7 := by norm_num

theorem pow_fact_spike_low : (21:ℕ) ^ 1057 < 5 ^ 2000 := by
  have e1 : (21:ℕ) ^ 1057 = (21 ^ 151) ^ 7 := by rw [← pow_mul]
  have e2 : (5:ℕ) ^ 2000 = (5 ^ 250) ^ 8 := by rw [← pow_mul]
  rw [e1, e2]
  norm_num

theorem pow_fact_spike_high : (5:ℕ) ^ 157 < 21 ^ 83 := by norm_num

theorem editor_ratio_lb : (0.5832 : ℝ) < Real.log 11 / Real.log 61 := by
  have h := lt_log_ratio 729 1250 (show 1 < 61 by norm_num)
    (show 0 < 1250 by norm_num) pow_fact_editor_low
  have : ((729:ℕ) : ℝ) / ((1250:ℕ) : ℝ) = (0.5832 : ℝ) := by norm_num
  rw [this] at h
  convert h using 3

theorem editor_ratio_ub : Real.log 11 / Real.log 61 < (7 : ℝ) / 12 := by
  have h := log_ratio_lt 7 12 (show 0 < 11 by norm_num) (show 1 < 61 by norm_num)
    (show 0 < 12 by norm_num) pow_fact_editor_high
  convert h using 3

theorem spike_ratio_lb : (0.5285 : ℝ) < Real.log 5 / Real.log 21 := by
  have h := lt_log_ratio 1057 2000 (show 1 < 21 by norm_num)
    (show 0 < 2000 by norm_num) pow_fact_spike_low
  have : ((1057:ℕ) : ℝ) / ((2000:ℕ) : ℝ) = (0.5285 : ℝ) := by norm_num
  rw [this] at h
  convert h using 3

theorem spike_ratio_ub : Real.log 5 / Real.log 21 < (83 : ℝ) / 157 := by
  have h := log_ratio_lt 83 157 (show 0 < 5 by norm_num) (show 1 < 21 by norm_num)
    (show 0 < 157 by norm_num) pow_fact_spike_high
  convert h using 3

theorem scenario_revert_norm : logNormalise 40 30 = 1 :=
  logNormalise_saturated (by norm_num) (by norm_num) (by norm_num)

theorem scenario_editor_norm : logNormalise 10 60 = Real.log 11 / Real.log 61 := by
  rw [logNormalise_eq_of_le (by norm_num) (by norm_num) (by norm_num)]
  norm_num

theorem scenario_spike_norm : logNormalise 4 20 = Real.log 5 / Real.log 21 := by
  rw [logNormalise_eq_of_le (by norm_num) (by norm_num) (by norm_num)]
  norm_num

theorem scenario_breakdown :
    (scoreBreakdown 40 10 4).score = 73.4 ∧
    (scoreBreakdown 40 10 4).revert_score = 100 ∧
    (scoreBreakdown 40 10 4).editor_score = 58.3 ∧
    (scoreBreakdown 40 10 4).spike_score = 52.9 ∧
    (scoreBreakdown 40 10 4).label = ("High") := by
  have he1 := editor_ratio_lb
  have he2 := editor_ratio_ub
  have hs1 := spike_ratio_lb
  have hs2 := spike_ratio_ub
  simp only [scoreBreakdown, scenario_revert_norm, scenario_editor_norm, scenario_spike_norm,
    SCORE_WEIGHT_REVERTS, SCORE_WEIGHT_UNIQUE_EDITORS, SCORE_WEIGHT_SPIKES]
  have hscore : round1R ((1 * 0.40 + Real.log 11 / Real.log 61 * 0.30 +
      Real.log 5 / Real.log 21 * 0.30) * 100) = ((734 : ℤ) : ℝ) / 10 := by
    apply round1R_eq
    · push_cast
      linarith
    · push_cast
      linarith
  have hrev : round1R ((1 : ℝ) * 100) = ((1000 : ℤ) : ℝ) / 10 := by
    apply round1R_eq
    · push_cast
      linarith
    · push_cast
      linarith
  have hed : round1R (Real.log 11 / Real.log 61 * 100) = ((583 : ℤ) : ℝ) / 10 := by
    apply round1R_eq
    · push_cast
      linarith
    · push_cast
      linarith
  have hsp : round1R (Real.log 5 / Real.log 21 * 100) = ((529 : ℤ) : ℝ) / 10 := by
    apply round1R_eq
    · push_cast
      linarith
    · push_cast
      linarith
  rw [hscore, hrev, hed, hsp]
  refine ⟨by norm_num, by norm_num, by norm_num, by norm_num, ?_⟩
  have : ((734 : ℤ) : ℝ) / 10 = 73.4 := by norm_num
  rw [this]
  unfold labelOf
  rw [if_neg (by norm_num), if_neg (by norm_num), if_pos (by norm_num)]

/-! ## Claim C1 -/

/-- C1 counterexample: the claim says the empty input yields a sentinel
summary with all counts zero, but `compute_summary` returns the empty dict
`{}` — there is no summary record at all (in particular none with zero
counts). -/
theorem claim_C1_counterexample :
    ¬ ∃ s : SummaryStatistics, computeSummary ([] : List EnrichedRevision) = some s ∧
      s.total_edits = 0 ∧ s.total_reverts = 0 ∧ s.spike_days = 0 := by
  rintro ⟨s, hs, _⟩
  simp [computeSummary] at hs

/-- C1 (amended): for the empty enriched sequence `compute_summary` returns
the empty dict (modelled as `none`), and `compute_controversy_score` on the
empty sequence returns composite 0, all three component scores 0 and label
"Low", whatever summary it is passed. -/
theorem claim_C1 :
    computeSummary ([] : List EnrichedRevision) = none ∧
    ∀ sum, computeControversyScore [] sum = ⟨0, 0, 0, 0, ("Low")⟩ :=
  ⟨rfl, fun _ => rfl⟩

/-! ## Claim C2 -/

/-- C2 counterexample: the claim says author "ClueBot" is flagged as a bot,
but the word-boundary regex `\bbot\b` does not match inside "cluebot", so
`detect_bots` leaves the flag false. -/
theorem claim_C2_counterexample : ¬ (isBotUser ("ClueBot") = true) := by decide

/-- C2 (amended): `detect_bots` flags an author exactly when the lowercased
author string contains "bot" as an isolated word-boundary token; under that
rule both "ClueBot" and "Robotics_Fan" are flagged false. -/
theorem claim_C2 :
    (∀ user : String, isBotUser user = true ↔ hasBotSpec none (lowChars user)) ∧
    isBotUser ("ClueBot") = false ∧ isBotUser ("Robotics_Fan") = false :=
  ⟨isBotUser_iff, by decide, by decide⟩

/-! ## Claim C5 -/

/-- C5 (confirmed): the severity label is "Low" on [0,25), "Medium" on
[25,50), "High" on [50,75), "Extreme" on [75,100]; the label returned by
`compute_controversy_score` is always the label of its rounded score; and
the four boundary samples come out as the spec says. -/
theorem claim_C5 : ∀ x : ℝ,
    ((0 ≤ x ∧ x < 25) → labelOf x = ("Low")) ∧
    ((25 ≤ x ∧ x < 50) → labelOf x = ("Medium")) ∧
    ((50 ≤ x ∧ x < 75) → labelOf x = ("High")) ∧
    ((75 ≤ x ∧ x ≤ 100) → labelOf x = ("Extreme")) ∧
    (∀ df sum, (computeControversyScore df sum).label =
      labelOf (computeControversyScore df sum).score) ∧
    labelOf 24.9 = ("Low") ∧ labelOf 25 = ("Medium") ∧
    labelOf 49.9 = ("Medium") ∧ labelOf 75 = ("Extreme") := by
  have hlow : ∀ y : ℝ, y < 25 → labelOf y = ("Low") := by
    intro y hy
    unfold labelOf
    rw [if_pos hy]
  have hmed : ∀ y : ℝ, 25 ≤ y → y < 50 → labelOf y = ("Medium") := by
    intro y h1 h2
    unfold labelOf
    rw [if_neg (not_lt.mpr h1), if_pos h2]
  have hhigh : ∀ y : ℝ, 50 ≤ y → y < 75 → labelOf y = ("High") := by
    intro y h1 h2
    unfold labelOf
    rw [if_neg (not_lt.mpr (by linarith)), if_neg (not_lt.mpr h1), if_pos h2]
  have hext : ∀ y : ℝ, 75 ≤ y → labelOf y = ("Extreme") := by
    intro y h1
    unfold labelOf
    rw [if_neg (not_lt.mpr (by linarith)), if_neg (not_lt.mpr (by linarith)),
      if_neg (not_lt.mpr h1)]
  intro x
  refine ⟨fun h => hlow x h.2, fun h => hmed x h.1 h.2, fun h => hhigh x h.1 h.2,
    fun h => hext x h.1, ?_, hlow _ (by norm_num), hmed _ (by norm_num) (by norm_num),
    hmed _ (by norm_num) (by norm_num), hext _ (by norm_num)⟩
  intro df sum
  match df, sum with
  | [], _ => exact (hlow 0 (by norm_num)).symm
  | _ :: _, none => exact (hlow 0 (by norm_num)).symm
  | _ :: _, some s => rfl

/-- C5 witness: the boundary samples, obtained from the theorem itself. -/
theorem claim_C5_witness : labelOf 24.9 = ("Low") ∧ labelOf 75 = ("Extreme") :=
  ⟨((claim_C5 24.9).1 ⟨by norm_num, by norm_num⟩),
   ((claim_C5 75).2.2.2.1 ⟨by norm_num, by norm_num⟩)⟩

/-! ## Claim C7 -/

theorem logb_div_logb (x y : ℝ) :
    Real.logb 10 x / Real.logb 10 y = Real.log x / Real.log y := by
  unfold Real.logb
  field_simp

/-- C7 counterexample: on the scenario input (100 revisions, 40 reverts, 10
unique authors, 2 spike days over a 50-day span) the composite score is not
72.4 as claimed (it is 73.4). -/
theorem claim_C7_counterexample :
    (computeControversyScore scenarioDf (some scenarioSummary)).score ≠ 72.4 := by
  rw [scenario_reduce, scenario_breakdown.1]
  norm_num

/-- C7 (amended): on the scenario input the revert component saturates at
1.0, the editor norm is log10(11)/log10(61) ≈ 0.583 (not 0.556), the spike
norm is log10(5)/log10(21) ≈ 0.529 (not 0.524), the composite is 73.4 (not
72.4), and the label is "High" as claimed. -/
theorem claim_C7 :
    logNormalise 40 30 = 1 ∧
    logNormalise 10 60 = Real.logb 10 11 / Real.logb 10 61 ∧
    logNormalise 4 20 = Real.logb 10 5 / Real.logb 10 21 ∧
    (0.58 : ℝ) < logNormalise 10 60 ∧ logNormalise 10 60 < 0.59 ∧
    (0.52 : ℝ) < logNormalise 4 20 ∧ logNormalise 4 20 < 0.53 ∧
    (computeControversyScore scenarioDf (some scenarioSummary)).revert_score = 100 ∧
    (computeControversyScore scenarioDf (some scenarioSummary)).editor_score = 58.3 ∧
    (computeControversyScore scenarioDf (some scenarioSummary)).spike_score = 52.9 ∧
    (computeControversyScore scenarioDf (some scenarioSummary)).score = 73.4 ∧
    (computeControversyScore scenarioDf (some scenarioSummary)).label = ("High") := by
  rcases scenario_breakdown with ⟨h1, h2, h3, h4, h5⟩
  refine ⟨scenario_revert_norm, ?_, ?_, ?_, ?_, ?_, ?_, ?_, ?_, ?_, ?_, ?_⟩
  · rw [scenario_editor_norm, logb_div_logb]
  · rw [scenario_spike_norm, logb_div_logb]
  · rw [scenario_editor_norm]
    linarith [editor_ratio_lb]
  · rw [scenario_editor_norm]
    linarith [editor_ratio_ub]
  · rw [scenario_spike_norm]
    linarith [spike_ratio_lb]
  · rw [scenario_spike_norm]
    linarith [spike_ratio_ub]
  · rw [scenario_reduce]
    exact h2
  · rw [scenario_reduce]
    exact h3
  · rw [scenario_reduce]
    exact h4
  · rw [scenario_reduce]
    exact h1
  · rw [scenario_reduce]
    exact h5

/-! ## Claim C3 -/

theorem round1R_nonneg {x : ℝ} (hx : 0 ≤ x) : 0 ≤ round1R x := by
  unfold round1R
  have h : (0:ℤ) ≤ bankersRound (x * 10) := le_bankersRound (by push_cast; linarith)
  have h2 : (0:ℝ) ≤ ((bankersRound (x * 10) : ℤ) : ℝ) := by exact_mod_cast h
  linarith

theorem round1R_le_100 {x : ℝ} (hx : x ≤ 100) : round1R x ≤ 100 := by
  unfold round1R
  have h : bankersRound (x * 10) ≤ (1000:ℤ) := bankersRound_le (by push_cast; linarith)
  have h2 : ((bankersRound (x * 10) : ℤ) : ℝ) ≤ 1000 := by exact_mod_cast h
  linarith

theorem round1R_mono {x y : ℝ} (h : x ≤ y) : round1R x ≤ round1R y := by
  unfold round1R
  have hb := bankersRound_mono (mul_le_mul_of_nonneg_right h (by norm_num : (0:ℝ) ≤ 10))
  have h2 : ((bankersRound (x * 10) : ℤ) : ℝ) ≤ ((bankersRound (y * 10) : ℤ) : ℝ) := by
    exact_mod_cast hb
  linarith

theorem scoreBreakdown_score_nonneg (r d s : ℝ) : 0 ≤ (scoreBreakdown r d s).score := by
  simp only [scoreBreakdown, SCORE_WEIGHT_REVERTS, SCORE_WEIGHT_UNIQUE_EDITORS,
    SCORE_WEIGHT_SPIKES]
  apply round1R_nonneg
  have h1 := logNormalise_nonneg r 30
  have h2 := logNormalise_nonneg d 60
  have h3 := logNormalise_nonneg s 20
  linarith

theorem scoreBreakdown_score_le_100 (r d s : ℝ) : (scoreBreakdown r d s).score ≤ 100 := by
  simp only [scoreBreakdown, SCORE_WEIGHT_REVERTS, SCORE_WEIGHT_UNIQUE_EDITORS,
    SCORE_WEIGHT_SPIKES]
  apply round1R_le_100
  have h1 := logNormalise_le_one r 30
  have h2 := logNormalise_le_one d 60
  have h3 := logNormalise_le_one s 20
  have h4 := logNormalise_nonneg r 30
  have h5 := logNormalise_nonneg d 60
  have h6 := logNormalise_nonneg s 20
  linarith

theorem scoreBreakdown_mono1 {r r2 : ℝ} (d s : ℝ) (h : r ≤ r2) :
    (scoreBreakdown r d s).score ≤ (scoreBreakdown r2 d s).score := by
  simp only [scoreBreakdown, SCORE_WEIGHT_REVERTS, SCORE_WEIGHT_UNIQUE_EDITORS,
    SCORE_WEIGHT_SPIKES]
  apply round1R_mono
  have := logNormalise_mono 30 h
  linarith

theorem scoreBreakdown_mono2 (r : ℝ) {d d2 : ℝ} (s : ℝ) (h : d ≤ d2) :
    (scoreBreakdown r d s).score ≤ (scoreBreakdown r d2 s).score := by
  simp only [scoreBreakdown, SCORE_WEIGHT_REVERTS, SCORE_WEIGHT_UNIQUE_EDITORS,
    SCORE_WEIGHT_SPIKES]
  apply round1R_mono
  have := logNormalise_mono 60 h
  linarith

theorem scoreBreakdown_mono3 (r d : ℝ) {s s2 : ℝ} (h : s ≤ s2) :
    (scoreBreakdown r d s).score ≤ (scoreBreakdown r d s2).score := by
  simp only [scoreBreakdown, SCORE_WEIGHT_REVERTS, SCORE_WEIGHT_UNIQUE_EDITORS,
    SCORE_WEIGHT_SPIKES]
  apply round1R_mono
  have := logNormalise_mono 20 h
  linarith

theorem computeScore_bounds (df : List EnrichedRevision) (sum : Option SummaryStatistics) :
    0 ≤ (computeControversyScore df sum).score ∧
    (computeControversyScore df sum).score ≤ 100 := by
  match df, sum with
  | [], _ => exact ⟨le_refl 0, show (0:ℝ) ≤ 100 by norm_num⟩
  | _ :: _, none => exact ⟨le_refl 0, show (0:ℝ) ≤ 100 by norm_num⟩
  | e :: rest, some s =>
      exact ⟨scoreBreakdown_score_nonneg _ _ _, scoreBreakdown_score_le_100 _ _ _⟩

/-- C3 (confirmed): the composite score is always in [0,100] (for every
DataFrame/summary input, with or without edits), and the score is monotone
non-decreasing in each of the three raw components (revert rate, editor
density, spike fraction) with the other two held fixed. -/
theorem claim_C3 (r d s r2 d2 s2 : ℝ) (hr : r ≤ r2) (hd : d ≤ d2) (hs : s ≤ s2) :
    (0 ≤ (scoreBreakdown r d s).score ∧ (scoreBreakdown r d s).score ≤ 100) ∧
    (scoreBreakdown r d s).score ≤ (scoreBreakdown r2 d s).score ∧
    (scoreBreakdown r d s).score ≤ (scoreBreakdown r d2 s).score ∧
    (scoreBreakdown r d s).score ≤ (scoreBreakdown r d s2).score ∧
    (∀ df sum, 0 ≤ (computeControversyScore df sum).score ∧
      (computeControversyScore df sum).score ≤ 100) :=
  ⟨⟨scoreBreakdown_score_nonneg r d s, scoreBreakdown_score_le_100 r d s⟩,
   scoreBreakdown_mono1 d s hr, scoreBreakdown_mono2 r s hd, scoreBreakdown_mono3 r d hs,
   computeScore_bounds⟩

/-- C3 witness: bounds at a concrete raw-component triple, obtained by
applying the theorem. -/
theorem claim_C3_witness :
    0 ≤ (scoreBreakdown 0 0 0).score ∧ (scoreBreakdown 0 0 0).score ≤ 100 :=
  (claim_C3 0 0 0 1 1 1 (by norm_num) (by norm_num) (by norm_num)).1

/-! ## Claim C4 -/

theorem isSpikeDay_iff {tss : List Nat} {t : Nat} (h : t ∈ tss) :
    isSpikeDay tss t = true ↔
      SPIKE_MULTIPLIER * (((tss.map dayOf).length : ℚ) / ((tss.map dayOf).dedup.length : ℚ))
        ≤ ((tss.map dayOf).count (dayOf t) : ℚ) := by
  have hmem : dayOf t ∈ (tss.map dayOf).dedup :=
    List.mem_dedup.mpr (List.mem_map_of_mem dayOf h)
  unfold isSpikeDay spikeDates
  simp [List.mem_filter, hmem]

/-- Number of calendar days covered by the span from the first to the last
revision date, endpoints included (the "whole span" reading of the claim,
modelled from the spec's words). -/
def spanDays (tss : List Nat) : Nat :=
  tsMaxL (tss.map dayOf) - tsMinL (tss.map dayOf) + 1

/-- The spike rule the claim asserts (modelled from the spec's words): a
revision is a spike exactly when its date's count reaches 3.0 times the
mean revisions-per-day across the whole span. -/
def specSpikeP (tss : List Nat) (t : Nat) : Prop :=
  SPIKE_MULTIPLIER * (((tss.map dayOf).length : ℚ) / (spanDays tss : ℚ))
    ≤ ((tss.map dayOf).count (dayOf t) : ℚ)

/-- C4 counterexample: one revision on day 0 and five on day 10.  The code's
mean is over the two distinct edit dates (6/2 = 3, threshold 9, no spike),
while the claimed whole-span mean is 6/11 (threshold 18/11), which marks the
day-10 revisions as spikes. -/
theorem claim_C4_counterexample :
    ¬ ∀ (tss : List Nat) (t : Nat), t ∈ tss → (isSpikeDay tss t = true ↔ specSpikeP tss t) := by
  intro hall
  have h := hall [0, 864000, 864001, 864002, 864003, 864004] 864000 (by decide)
  have hc : ([0, 864000, 864001, 864002, 864003, 864004].map dayOf).count (dayOf 864000)
      = 5 := by decide
  have hl : ([0, 864000, 864001, 864002, 864003, 864004].map dayOf).length = 6 := by decide
  have hd : ([0, 864000, 864001, 864002, 864003, 864004].map dayOf).dedup.length = 2 := by
    decide
  have hsd : spanDays [0, 864000, 864001, 864002, 864003, 864004] = 11 := by decide
  have hspec : specSpikeP [0, 864000, 864001, 864002, 864003, 864004] 864000 := by
    unfold specSpikeP SPIKE_MULTIPLIER
    rw [hc, hl, hsd]
    norm_num
  have hcode : ¬ isSpikeDay [0, 864000, 864001, 864002, 864003, 864004] 864000 = true := by
    rw [isSpikeDay_iff (by decide), hc, hl, hd]
    unfold SPIKE_MULTIPLIER
    norm_num
  exact hcode (h.mpr hspec)

/-- C4 (amended): `detect_spikes` groups revisions by UTC calendar date and
marks a revision as a spike exactly when its date's count is at least 3.0
times the mean daily count, where the mean is taken over the distinct dates
that have at least one revision (not over the whole calendar span). -/
theorem claim_C4 (tss : List Nat) (t : Nat) (h : t ∈ tss) :
    isSpikeDay tss t = true ↔
      SPIKE_MULTIPLIER * (((tss.map dayOf).length : ℚ) / ((tss.map dayOf).dedup.length : ℚ))
        ≤ ((tss.map dayOf).count (dayOf t) : ℚ) :=
  isSpikeDay_iff h

/-- C4 witness: the characterisation applied to the concrete six-revision
series at the day-10 revision. -/
theorem claim_C4_witness :
    isSpikeDay [0, 864000, 864001, 864002, 864003, 864004] 864000 = true ↔
      SPIKE_MULTIPLIER *
        ((([0, 864000, 864001, 864002, 864003, 864004].map dayOf).length : ℚ) /
          (([0, 864000, 864001, 864002, 864003, 864004].map dayOf).dedup.length : ℚ))
        ≤ ((([0, 864000, 864001, 864002, 864003, 864004].map dayOf).count (dayOf 864000)) : ℚ) :=
  claim_C4 [0, 864000, 864001, 864002, 864003, 864004] 864000 (by decide)

/-! ## Claim C6 -/

theorem round2_nonneg {x : ℚ} (hx : 0 ≤ x) : 0 ≤ round2 x := by
  unfold round2
  have h : (0:ℤ) ≤ bankersRound (x * 100) := le_bankersRound (by push_cast; linarith)
  have h2 : (0:ℚ) ≤ ((bankersRound (x * 100) : ℤ) : ℚ) := by exact_mod_cast h
  linarith

theorem round2_le_100 {x : ℚ} (hx : x ≤ 100) : round2 x ≤ 100 := by
  unfold round2
  have h : bankersRound (x * 100) ≤ (10000:ℤ) := bankersRound_le (by push_cast; linarith)
  have h2 : ((bankersRound (x * 100) : ℤ) : ℚ) ≤ 10000 := by exact_mod_cast h
  linarith

theorem round2_zero : round2 0 = 0 := by
  unfold round2
  rw [zero_mul, show (0:ℚ) = ((0:ℤ) : ℚ) by norm_num, bankersRound_intCast]
  norm_num

/-- C6 counterexample: the claim says the revert rate is defined as 0 when
`total_count = 0`, but for the (only) zero-count input — the empty
sequence — `compute_summary` returns the empty dict, so no revert rate is
defined at all. -/
theorem claim_C6_counterexample :
    ¬ ∃ s : SummaryStatistics, computeSummary ([] : List EnrichedRevision) = some s ∧
      s.revert_rate = 0 := by
  rintro ⟨s, hs, _⟩
  simp [computeSummary] at hs

/-- C6 (amended): for every non-empty enriched sequence, the summary exists
and its revert rate equals revert_count / total_count × 100 rounded (half to
even) to 2 decimals, lies in [0,100], and is 0 whenever the revert count is
0; for the empty sequence no summary (hence no rate) is produced. -/
theorem claim_C6 (l : List EnrichedRevision) (h : l ≠ []) :
    ∃ s, computeSummary l = some s ∧
      s.revert_rate = round2 ((s.total_reverts : ℚ) / (s.total_edits : ℚ) * 100) ∧
      0 ≤ s.revert_rate ∧ s.revert_rate ≤ 100 ∧
      (s.total_reverts = 0 → s.revert_rate = 0) := by
  match l with
  | [] => exact absurd rfl h
  | e :: rest =>
      refine ⟨_, rfl, ?_, ?_, ?_, ?_⟩
      · rfl
      · show (0:ℚ) ≤ round2 _
        apply round2_nonneg
        positivity
      · show round2 _ ≤ 100
        apply round2_le_100
        have hk : ((e :: rest).countP fun r => r.is_revert) ≤ (e :: rest).length :=
          List.countP_le_length _
        have hn : (0:ℚ) < ((e :: rest).length : ℚ) := by
          have : 0 < (e :: rest).length := by simp
          exact_mod_cast this
        have hdiv : (((e :: rest).countP fun r => r.is_revert) : ℚ) /
            ((e :: rest).length : ℚ) ≤ 1 := by
          rw [div_le_one hn]
          exact_mod_cast hk
        linarith
      · intro h0
        show round2 _ = 0
        have hz : (((e :: rest).countP fun r => r.is_revert) : ℚ) = 0 := by
          exact_mod_cast h0
        rw [hz, zero_div, zero_mul, round2_zero]

/-- C6 witness: the amended statement at a concrete one-element sequence. -/
theorem claim_C6_witness :
    ∃ s, computeSummary [mkEnriched ("a") 0] = some s ∧
      s.revert_rate = round2 ((s.total_reverts : ℚ) / (s.total_edits : ℚ) * 100) ∧
      0 ≤ s.revert_rate ∧ s.revert_rate ≤ 100 ∧
      (s.total_reverts = 0 → s.revert_rate = 0) :=
  claim_C6 [mkEnriched ("a") 0] (by simp)

/-! ## Claim C10 -/

theorem zipWith_sub_sum : ∀ (xs : List Int) (x : Int),
    (List.zipWith (fun a b => a - b) xs (x :: xs)).sum = (x :: xs).getLastD 0 - x := by
  intro xs
  induction xs with
  | nil =>
      intro x
      simp
  | cons y ys ih =>
      intro x
      show ((y - x) :: List.zipWith (fun a b => a - b) ys (y :: ys)).sum = _
      rw [List.sum_cons, ih y]
      have hl : (x :: y :: ys).getLastD 0 = (y :: ys).getLastD 0 := by
        rw [List.getLastD_eq_getLast?, List.getLastD_eq_getLast?, List.getLast?_cons_cons]
      rw [hl]
      ring

theorem zipWith_sub_get : ∀ (xs : List Int) (x : Int) (i : Nat), i < xs.length →
    (List.zipWith (fun a b => a - b) xs (x :: xs))[i]? =
      some (xs.getD i 0 - (x :: xs).getD i 0) := by
  intro xs
  induction xs with
  | nil =>
      intro x i hi
      simp at hi
  | cons y ys ih =>
      intro x i hi
      match i with
      | 0 => simp [List.getD]
      | Nat.succ j =>
          have hj : j < ys.length := by simpa using hi
          have := ih y j hj
          simpa [List.getD] using this

/-- C10 (confirmed): for a non-empty size column the delta column starts
with 0, each later entry is the difference with the previous size, the
column has the same length, and the deltas telescope: their sum is the last
size minus the first. -/
theorem claim_C10 (x : Int) (xs : List Int) :
    (computeEditSizeDelta (x :: xs)).length = (x :: xs).length ∧
    (computeEditSizeDelta (x :: xs)).head? = some 0 ∧
    (∀ i, i < xs.length → (computeEditSizeDelta (x :: xs))[i + 1]? =
      some ((x :: xs).getD (i + 1) 0 - (x :: xs).getD i 0)) ∧
    (computeEditSizeDelta (x :: xs)).sum = (x :: xs).getLastD 0 - x := by
  refine ⟨?_, rfl, ?_, ?_⟩
  · show (0 :: List.zipWith (fun a b => a - b) xs (x :: xs)).length = _
    simp [List.length_zipWith]
  · intro i hi
    show (0 :: List.zipWith (fun a b => a - b) xs (x :: xs))[i + 1]? = _
    rw [List.getElem?_cons_succ]
    rw [zipWith_sub_get xs x i hi]
    simp [List.getD]
  · show (0 :: List.zipWith (fun a b => a - b) xs (x :: xs)).sum = _
    rw [List.sum_cons, zero_add, zipWith_sub_sum]

/-- C10 witness: the statement at the concrete size column [3, 5, 2]. -/
theorem claim_C10_witness :
    (computeEditSizeDelta [3, 5, 2]).length = ([3, 5, 2] : List Int).length ∧
    (computeEditSizeDelta [3, 5, 2]).head? = some 0 ∧
    (∀ i, i < ([5, 2] : List Int).length → (computeEditSizeDelta [3, 5, 2])[i + 1]? =
      some (([3, 5, 2] : List Int).getD (i + 1) 0 - ([3, 5, 2] : List Int).getD i 0)) ∧
    (computeEditSizeDelta [3, 5, 2]).sum = ([3, 5, 2] : List Int).getLastD 0 - 3 :=
  claim_C10 3 [5, 2]

/-! ## Claim C9 -/

theorem filterMap_normalize_length : ∀ raws : List RawRevision,
    (raws.filterMap fun r => r.timestamp.map fun ts => normalizeRaw r ts).length =
      raws.countP fun r => r.timestamp.isSome := by
  intro raws
  induction raws with
  | nil => rfl
  | cons r rest ih =>
      cases hts : r.timestamp with
      | none => simp [List.filterMap_cons, hts, List.countP_cons, ih]
      | some t => simp [List.filterMap_cons, hts, List.countP_cons, ih]

/-- C9 (confirmed): the fetcher's post-processing returns the parseable
rows sorted by timestamp ascending; its length is exactly the number of
rows whose timestamp parses, hence never exceeds the input length, and it
can be strictly shorter. -/
theorem claim_C9 (raws : List RawRevision) :
    (postProcessRevisions raws).Pairwise (fun a b => a.timestamp ≤ b.timestamp) ∧
    (postProcessRevisions raws).length = (raws.countP fun r => r.timestamp.isSome) ∧
    (postProcessRevisions raws).length ≤ raws.length ∧
    (∃ raws2 : List RawRevision, (postProcessRevisions raws2).length < raws2.length) := by
  have htot : ∀ a b : Revision, decide (a.timestamp ≤ b.timestamp) = false →
      decide (b.timestamp ≤ a.timestamp) = true := by
    intro a b hab
    simp only [decide_eq_false_iff_not, decide_eq_true_eq] at *
    omega
  have htrans : ∀ a b c : Revision, decide (a.timestamp ≤ b.timestamp) = true →
      decide (b.timestamp ≤ c.timestamp) = true → decide (a.timestamp ≤ c.timestamp) = true := by
    intro a b c h1 h2
    simp only [decide_eq_true_eq] at *
    omega
  refine ⟨?_, ?_, ?_, ?_⟩
  · have hp := sortLe_pairwise (fun a b : Revision => decide (a.timestamp ≤ b.timestamp))
      htot htrans (raws.filterMap fun r => r.timestamp.map fun ts => normalizeRaw r ts)
    exact hp.imp fun h => of_decide_eq_true h
  · unfold postProcessRevisions
    rw [(sortLe_perm _ _).length_eq, filterMap_normalize_length]
  · unfold postProcessRevisions
    rw [(sortLe_perm _ _).length_eq, filterMap_normalize_length]
    exact List.countP_le_length _
  · exact ⟨[⟨none, none, none, none, none⟩], by decide⟩

/-! ## Claim C8 -/

theorem sortLe_desc_counts (m : List (String × Nat)) :
    (sortLe (fun a b => decide (b.2 ≤ a.2)) m).Pairwise fun a b => b.2 ≤ a.2 := by
  have htot : ∀ a b : String × Nat, decide (b.2 ≤ a.2) = false → decide (a.2 ≤ b.2) = true := by
    intro a b hab
    simp only [decide_eq_false_iff_not, decide_eq_true_eq, not_le] at *
    omega
  have htrans : ∀ a b c : String × Nat, decide (b.2 ≤ a.2) = true →
      decide (c.2 ≤ b.2) = true → decide (c.2 ≤ a.2) = true := by
    intro a b c h1 h2
    simp only [decide_eq_true_eq] at *
    omega
  have hp := sortLe_pairwise (fun a b : String × Nat => decide (b.2 ≤ a.2)) htot htrans m
  exact hp.imp fun hx => of_decide_eq_true hx

/-- The executable `topEditors` is one admissible outcome of the
`top_editors` pipeline. -/
theorem topEditors_isTopEditors (l : List EnrichedRevision) :
    IsTopEditors l (topEditors l) :=
  ⟨sortLe (fun a b => decide (b.2 ≤ a.2)) (authorCounts l),
    ⟨(sortLe_perm _ _).symm, sortLe_desc_counts _⟩, rfl⟩

/-- C8 counter-model (modelled from the claim's words): top authors with
ties broken by order of first appearance — distinct users kept in
first-appearance order, then a stable descending count sort (which is what
"ties broken by first appearance" means) and the same cut to 10. -/
def specTopAuthors (l : List EnrichedRevision) : List (String × Nat) :=
  (sortLe (fun a b => decide (b.2 ≤ a.2))
    (((l.map fun e => e.rev.user).dedup).map fun u =>
      (u, (l.map fun e => e.rev.user).count u))).take 10

/-- C8 counterexample: with authors appearing in the order "b", "a" (one
revision each), `groupby("user")` sorts the keys ascending first, and on an
input this small the value sort's kernel is numpy's stable insertion sort
(pandas' descending wrapper preserves the ascending argsort's tie order),
which is exactly what `topEditors` computes — so the program ranks "a"
before "b", while the claimed first-appearance tie-break would rank "b"
first. -/
theorem claim_C8_counterexample :
    topEditors [mkEnriched ("b") 0, mkEnriched ("a") 1] ≠
      specTopAuthors [mkEnriched ("b") 0, mkEnriched ("a") 1] := by
  decide

/-- C8 (amended): every result the `top_editors` pipeline can produce —
the author counts put through some descending-in-count sort, cut to 10 —
has at most 10 entries, is ranked by revision count descending, and pairs
each listed author with that author's true revision count; the executable
model is one such result.  The order of authors with equal counts is
implementation-defined (numpy's unstable quicksort over the
alphabetically keyed groupby output), and in particular is not the order
of first appearance. -/
theorem claim_C8 (l : List EnrichedRevision) (out : List (String × Nat))
    (h : IsTopEditors l out) :
    out.length ≤ 10 ∧
    (out.Pairwise fun a b => b.2 ≤ a.2) ∧
    (∀ p ∈ out, p.1 ∈ (l.map fun e => e.rev.user) ∧
      p.2 = (l.map fun e => e.rev.user).count p.1) ∧
    IsTopEditors l (topEditors l) := by
  rcases h with ⟨sorted, ⟨hperm, hdesc⟩, hout⟩
  subst hout
  refine ⟨List.length_take_le _ _,
    List.Pairwise.sublist (List.take_sublist _ _) hdesc, ?_, topEditors_isTopEditors l⟩
  intro p hp
  have hp2 : p ∈ sorted := List.mem_of_mem_take hp
  have hp3 : p ∈ authorCounts l := hperm.mem_iff.mpr hp2
  unfold authorCounts at hp3
  rcases List.mem_map.mp hp3 with ⟨u, hu, hup⟩
  have hu2 : u ∈ (l.map fun e => e.rev.user).dedup := (sortLe_perm userLe _).mem_iff.mp hu
  have hu3 : u ∈ l.map fun e => e.rev.user := List.mem_dedup.mp hu2
  cases hup
  exact ⟨hu3, rfl⟩

/-- C8 witness: the amended statement at the concrete two-author sequence,
with the executable result as the admissible output. -/
theorem claim_C8_witness :
    (topEditors [mkEnriched ("b") 0, mkEnriched ("a") 1]).length ≤ 10 ∧
    ((topEditors [mkEnriched ("b") 0, mkEnriched ("a") 1]).Pairwise fun a b => b.2 ≤ a.2) ∧
    (∀ p ∈ topEditors [mkEnriched ("b") 0, mkEnriched ("a") 1],
      p.1 ∈ ([mkEnriched ("b") 0, mkEnriched ("a") 1].map fun e => e.rev.user) ∧
      p.2 = ([mkEnriched ("b") 0, mkEnriched ("a") 1].map fun e => e.rev.user).count p.1) ∧
    IsTopEditors [mkEnriched ("b") 0, mkEnriched ("a") 1]
      (topEditors [mkEnriched ("b") 0, mkEnriched ("a") 1]) :=
  claim_C8 [mkEnriched ("b") 0, mkEnriched ("a") 1]
    (topEditors [mkEnriched ("b") 0, mkEnriched ("a") 1])
    (topEditors_isTopEditors [mkEnriched ("b") 0, mkEnriched ("a") 1])


end WikiWar
